import Mathlib

/-!
Verification of the CodeCraft rust_engine (src/rust_engine/src/lib.rs) against its
natural-language specification.

The engine walks tree-sitter concrete syntax trees.  We embed such trees shallowly:
a node carries its grammar `kind`, the source text of its byte range (`text`, standing
for `source[start_byte..end_byte]`), its 0-based start row, and its ordered children.
Trees and forests are mutually inductive so that every function below is plain
structural recursion, mirroring the Rust walkers one-for-one.

The file system is embedded as needed by each entry point: a map from path strings to
parsed trees (standing for `fs::read_to_string` followed by `parser.parse`; `none`
covers read failures, non-UTF-8 content and parse failures alike), an existence
oracle `ex : String → Bool` (standing for `Path::exists`), and a directory tree for
the `walkdir` workspace walker.
-/

mutual
inductive TSNode where
  | mk (kind : String) (text : String) (row : Nat) (children : TSForest)
inductive TSForest where
  | nil
  | cons (hd : TSNode) (tl : TSForest)
end

deriving instance DecidableEq for TSNode

def TSNode.kindOf : TSNode → String
  | .mk k _ _ _ => k

def TSNode.textOf : TSNode → String
  | .mk _ x _ _ => x

def TSNode.rowOf : TSNode → Nat
  | .mk _ _ r _ => r

def TSNode.childrenOf : TSNode → TSForest
  | .mk _ _ _ cs => cs

def TSForest.toList : TSForest → List TSNode
  | .nil => []
  | .cons c cs => c :: TSForest.toList cs

/-- `str::starts_with` (computed on the character lists so that it reduces). -/
def strStarts (s pre : String) : Bool :=
  pre.toList.isPrefixOf s.toList

/-- `str::ends_with` (computed on the character lists so that it reduces). -/
def strEnds (s suf : String) : Bool :=
  suf.toList.isSuffixOf s.toList

/-- Whitespace trimming of both ends, as in `str::trim`. -/
def trimChars (cs : List Char) : List Char :=
  ((cs.dropWhile Char.isWhitespace).reverse.dropWhile Char.isWhitespace).reverse

/-- Signature extraction, lib.rs:511 and lib.rs:412 and lib.rs:564:
`node_text.split('{').next().unwrap_or(node_text).trim()` — the text before the
first opening brace (the whole text when there is none), trimmed. -/
def sigOf (s : String) : String :=
  String.mk (trimChars (s.toList.takeWhile (fun c => !(c == Char.ofNat 123))))

/-- Indentation `"  ".repeat(depth)`, lib.rs:512. -/
def indentOf (d : Nat) : String :=
  String.join (List.replicate d "  ")

/-- The declaration-of-interest test of the skeleton walker, lib.rs:501-505, which is
also the declaration test of the search walker, lib.rs:554-558. -/
def skelRelevantK (k : String) : Bool :=
  k == "function_declaration" || k == "class_declaration" || k == "interface_declaration" ||
  k == "method_definition" || k == "function_item" || k == "struct_item" ||
  k == "trait_item" || k == "impl_item" || k == "field_declaration"

/-- The container-kind test (`should_recurse`), lib.rs:518-522 and lib.rs:580-584. -/
def containerK (k : String) : Bool :=
  k == "program" || k == "source_file" || k == "class_declaration" || k == "impl_item" ||
  k == "class_body" || k == "declaration_list" || k == "export_statement" ||
  k == "mod_item" || k == "struct_item" || k == "field_declaration_list"

/-- The declaration classifier of `find_symbol`, lib.rs:390-401: returns
`(is_relevant, symbol_kind)`. -/
def findKindRel (k : String) : Bool × String :=
  if k == "function_declaration" then (true, "function")
  else if k == "class_declaration" then (true, "class")
  else if k == "interface_declaration" then (true, "interface")
  else if k == "method_definition" then (true, "method")
  else if k == "function_item" then (true, "function")
  else if k == "struct_item" then (true, "struct")
  else if k == "trait_item" then (true, "trait")
  else if k == "impl_item" then (true, "impl")
  else if k == "lexical_declaration" || k == "variable_declaration" then (true, "variable")
  else (false, "")

mutual
/-- `walk_tree`, lib.rs:498-528.  Returns the text appended to `output`.  The child
depth is `depth + 1` when the current node is a declaration, and children are visited
when the current node's kind is a container or the current depth is 0. -/
def walkTree : TSNode → Nat → String
  | .mk k x _ cs, d =>
    (if skelRelevantK k then indentOf d ++ sigOf x ++ "\n" else "") ++
    (if containerK k || d == 0 then
       walkForest cs (if skelRelevantK k then d + 1 else d)
     else "")
def walkForest : TSForest → Nat → String
  | .nil, _ => ""
  | .cons c cs, d => walkTree c d ++ walkForest cs d
end

/-- `extract_skeleton`, lib.rs:475-496 (parsing handled by the caller of the model). -/
def extractSkeleton (t : TSNode) : String :=
  walkTree t 0

mutual
/-- The declaration nodes emitted by `walk_tree` (one element per emitted signature
line, in emission order), lib.rs:498-528. -/
def skelDecls : TSNode → Nat → List TSNode
  | .mk k x r cs, d =>
    (if skelRelevantK k then [TSNode.mk k x r cs] else []) ++
    (if containerK k || d == 0 then
       skelDeclsF cs (if skelRelevantK k then d + 1 else d)
     else [])
def skelDeclsF : TSForest → Nat → List TSNode
  | .nil, _ => []
  | .cons c cs, d => skelDecls c d ++ skelDeclsF cs d
end

mutual
/-- The declaration nodes scored by `walk_and_match` (nodes where `fuzzy_match` is
invoked, before the score filter), lib.rs:551-590.  Children are visited when the
node's kind is a container or is `program`/`source_file`, lib.rs:580-586. -/
def matchDecls : TSNode → List TSNode
  | .mk k x r cs =>
    (if skelRelevantK k then [TSNode.mk k x r cs] else []) ++
    (if containerK k || k == "program" || k == "source_file" then matchDeclsF cs else [])
def matchDeclsF : TSForest → List TSNode
  | .nil => []
  | .cons c cs => matchDecls c ++ matchDeclsF cs
end

structure SearchResult where
  file : String
  line : Nat
  match_content : String
  score : Int
deriving DecidableEq, Repr

mutual
/-- `walk_and_match`, lib.rs:551-590.  `m` is the skim fuzzy scorer
(`matcher.fuzzy_match(signature, query)`), kept abstract. -/
def walkMatch (m : String → String → Option Int) (q p : String) : TSNode → List SearchResult
  | .mk k x r cs =>
    (if skelRelevantK k then
       match m (sigOf x) q with
       | some sc => if 60 < sc then [⟨p, r + 1, sigOf x, sc⟩] else []
       | none => []
     else []) ++
    (if containerK k || k == "program" || k == "source_file" then walkMatchF m q p cs else [])
def walkMatchF (m : String → String → Option Int) (q p : String) : TSForest → List SearchResult
  | .nil => []
  | .cons c cs => walkMatch m q p c ++ walkMatchF m q p cs
end

/-- Stable insertion for descending-score order: the inserted (earlier) element is
placed before later elements of equal score, matching Rust's stable
`results.sort_by(|a, b| b.score.cmp(&a.score))`, lib.rs:115. -/
def insertDesc (r : SearchResult) : List SearchResult → List SearchResult
  | [] => [r]
  | x :: xs => if r.score < x.score then x :: insertDesc r xs else r :: x :: xs

/-- Stable sort by score descending (any stable sort has this unique output). -/
def sortDesc : List SearchResult → List SearchResult
  | [] => []
  | x :: xs => insertDesc x (sortDesc xs)

mutual
/-- A workspace directory tree.  A file carries `some tree` when
`fs::read_to_string` and `parser.parse` both succeed on it, `none` otherwise. -/
inductive FsTree where
  | file (name : String) (parsed : Option TSNode)
  | dir (name : String) (children : FsList)
inductive FsList where
  | nil
  | cons (hd : FsTree) (tl : FsList)
end

deriving instance DecidableEq for FsTree

/-- `is_hidden`, lib.rs:467-473. -/
def isHiddenName (s : String) : Bool :=
  (strStarts s "." && s != ".") || s == "node_modules" || s == "target" || s == "dist"

/-- `Path::join` of a directory path and an entry name (names never start with `/`). -/
def pathJoin (pre n : String) : String :=
  if pre == "" then n else pre ++ "/" ++ n

/-- A walker entry: full path (`entry.path()`), basename (`entry.file_name()`), and
the parse result of the file. -/
structure WEntry where
  path : String
  fname : String
  parsed : Option TSNode
deriving DecidableEq

mutual
/-- The file entries yielded by
`WalkDir::new(path).into_iter().filter_entry(|e| !is_hidden(e))`, lib.rs:93-97:
`filter_entry` applies `is_hidden` to every entry — files and directories alike —
and prunes a filtered directory with its subtree. -/
def walkFiles : String → FsTree → List WEntry
  | pre, .file n c => if isHiddenName n then [] else [⟨pathJoin pre n, n, c⟩]
  | pre, .dir n cs => if isHiddenName n then [] else walkFilesL (pathJoin pre n) cs
def walkFilesL : String → FsList → List WEntry
  | _, .nil => []
  | pre, .cons t ts => walkFiles pre t ++ walkFilesL pre ts
end

mutual
/-- All file entries of the tree, with no filtering at all (used only to state what
the walker leaves out). -/
def allEntries : String → FsTree → List WEntry
  | pre, .file n c => [⟨pathJoin pre n, n, c⟩]
  | pre, .dir n cs => allEntriesL (pathJoin pre n) cs
def allEntriesL : String → FsList → List WEntry
  | _, .nil => []
  | pre, .cons t ts => allEntries pre t ++ allEntriesL pre ts
end

/-- The language filter of `search` and `generate_repo_map`, lib.rs:100-106. -/
def extSearch (p : String) : Bool :=
  strEnds p ".ts" || strEnds p ".tsx" || strEnds p ".rs"

/-- The TypeScript-only filter, lib.rs:619 and lib.rs:705 and lib.rs:806. -/
def extTsx (p : String) : Bool :=
  strEnds p ".ts" || strEnds p ".tsx"

/-- The flat list of search candidates pushed by `find_matches` across the walked
workspace, in walker order, lib.rs:93-112. -/
def searchCandidates (m : String → String → Option Int) (root : FsTree) (q : String) :
    List SearchResult :=
  ((walkFiles "" root).map (fun e =>
    if extSearch e.path then
      match e.parsed with
      | some t => walkMatch m q e.path t
      | none => []
    else [])).flatten

/-- `search`, lib.rs:89-118: gather candidates, sort by score descending (stable),
truncate to 10. -/
def searchModel (m : String → String → Option Int) (root : FsTree) (q : String) :
    List SearchResult :=
  (sortDesc (searchCandidates m root q)).take 10

/-- A quote character, for `trim_matches(|c| c == '"' || c == '\'')`, lib.rs:254. -/
def isQuoteChar (c : Char) : Bool :=
  c == '"' || c == Char.ofNat 39

/-- `text.trim_matches(|c| c == '"' || c == '\'')`: strips quote characters from both
ends, lib.rs:254. -/
def dropQuotes (s : String) : String :=
  String.mk (((s.toList.dropWhile isQuoteChar).reverse.dropWhile isQuoteChar).reverse)

/-- The identifier texts pushed for a `namespace_import` clause child, lib.rs:267-278. -/
def nsIdentTexts : TSForest → List String
  | .nil => []
  | .cons c cs => (if c.kindOf == "identifier" then [c.textOf] else []) ++ nsIdentTexts cs

/-- The first `identifier` child, used for `import_specifier` (lib.rs:283-292, with
`break` after the first hit) and for `variable_declarator` (lib.rs:449-458). -/
def firstIdentText : TSForest → Option String
  | .nil => none
  | .cons c cs => if c.kindOf == "identifier" then some c.textOf else firstIdentText cs

/-- The symbols pushed for a `named_imports` clause child: for each
`import_specifier`, its first `identifier`, lib.rs:279-294. -/
def namedImportTexts : TSForest → List String
  | .nil => []
  | .cons c cs =>
    (if c.kindOf == "import_specifier" then (firstIdentText c.childrenOf).toList else []) ++
    namedImportTexts cs

/-- The symbols pushed while scanning the children of an `import_clause` in order,
lib.rs:256-298. -/
def clauseSyms : TSForest → List String
  | .nil => []
  | .cons c cs =>
    (if c.kindOf == "identifier" then [c.textOf]
     else if c.kindOf == "namespace_import" then nsIdentTexts c.childrenOf
     else if c.kindOf == "named_imports" then namedImportTexts c.childrenOf
     else []) ++ clauseSyms cs

/-- Whether the clause scan sets `is_default = true` (some bare `identifier` child),
lib.rs:260-266. -/
def clauseDefault : TSForest → Bool
  | .nil => false
  | .cons c cs => (c.kindOf == "identifier") || clauseDefault cs

/-- Whether the clause scan sets `is_namespace = true` (some `namespace_import`
child), lib.rs:267-269. -/
def clauseNs : TSForest → Bool
  | .nil => false
  | .cons c cs => (c.kindOf == "namespace_import") || clauseNs cs

/-- The final value of `source_path` after the child scan of
`parse_import_statement`: each `string`/`string_fragment` child overwrites it, so the
last one wins, lib.rs:249-255. -/
def lastSpec : TSForest → Option String
  | .nil => none
  | .cons c cs =>
    match lastSpec cs with
    | some s => some s
    | none =>
      if c.kindOf == "string" || c.kindOf == "string_fragment" then
        some (dropQuotes c.textOf)
      else none

/-- The symbols accumulated over all `import_clause` children, in order, lib.rs:256-298. -/
def impSyms : TSForest → List String
  | .nil => []
  | .cons c cs =>
    (if c.kindOf == "import_clause" then clauseSyms c.childrenOf else []) ++ impSyms cs

/-- The final `is_default` flag, lib.rs:243 and lib.rs:265. -/
def impDefault : TSForest → Bool
  | .nil => false
  | .cons c cs =>
    (if c.kindOf == "import_clause" then clauseDefault c.childrenOf else false) || impDefault cs

/-- The final `is_namespace` flag, lib.rs:244 and lib.rs:269. -/
def impNs : TSForest → Bool
  | .nil => false
  | .cons c cs =>
    (if c.kindOf == "import_clause" then clauseNs c.childrenOf else false) || impNs cs

structure ImportInfo where
  source : String
  symbols : List String
  is_default : Bool
  is_namespace : Bool
deriving DecidableEq, Repr

structure ExportInfo where
  name : String
  kind : String
  is_default : Bool
deriving DecidableEq, Repr

/-- `parse_import_statement`, lib.rs:240-314: scan the children of the
`import_statement`, then discard the import when the collected specifier is empty. -/
def parseImportStatement (n : TSNode) : Option ImportInfo :=
  let src := (lastSpec n.childrenOf).getD ""
  if src == "" then none
  else some ⟨src, impSyms n.childrenOf, impDefault n.childrenOf, impNs n.childrenOf⟩

/-- The first `identifier` or `type_identifier` child, lib.rs:328-343. -/
def firstIdentOrTypeText : TSForest → Option String
  | .nil => none
  | .cons c cs =>
    if c.kindOf == "identifier" || c.kindOf == "type_identifier" then some c.textOf
    else firstIdentOrTypeText cs

/-- The first `type_identifier` child, lib.rs:366-379. -/
def firstTypeIdentText : TSForest → Option String
  | .nil => none
  | .cons c cs =>
    if c.kindOf == "type_identifier" then some c.textOf else firstTypeIdentText cs

/-- The exports pushed for a `lexical_declaration` child of an export statement: one
per `variable_declarator` with an `identifier`, lib.rs:345-365. -/
def lexExports : Bool → TSForest → List ExportInfo
  | _, .nil => []
  | d, .cons c cs =>
    (if c.kindOf == "variable_declarator" then
       match firstIdentText c.childrenOf with
       | some t => [⟨t, "variable", d⟩]
       | none => []
     else []) ++ lexExports d cs

/-- The child scan of `parse_export_statement`, threading the mutable `is_default`
flag, lib.rs:316-384. -/
def exportAcc : TSForest → Bool → List ExportInfo
  | .nil, _ => []
  | .cons c cs, d =>
    if c.kindOf == "default" then exportAcc cs true
    else if c.kindOf == "function_declaration" || c.kindOf == "class_declaration" then
      (match firstIdentOrTypeText c.childrenOf with
       | some t =>
         [⟨t, if c.kindOf == "function_declaration" then "function" else "class", d⟩]
       | none => []) ++ exportAcc cs d
    else if c.kindOf == "lexical_declaration" then
      lexExports d c.childrenOf ++ exportAcc cs d
    else if c.kindOf == "interface_declaration" then
      (match firstTypeIdentText c.childrenOf with
       | some t => [⟨t, "interface", d⟩]
       | none => []) ++ exportAcc cs d
    else exportAcc cs d

/-- `parse_export_statement`, lib.rs:316-384. -/
def parseExportStatement (n : TSNode) : List ExportInfo :=
  exportAcc n.childrenOf false

mutual
/-- The imports collected by `extract_imports_exports` (full-tree pre-order
traversal), lib.rs:213-238. -/
def impsOf : TSNode → List ImportInfo
  | .mk k x r cs =>
    (if k == "import_statement" then (parseImportStatement (.mk k x r cs)).toList else []) ++
    impsOfF cs
def impsOfF : TSForest → List ImportInfo
  | .nil => []
  | .cons c cs => impsOf c ++ impsOfF cs
end

mutual
/-- The exports collected by `extract_imports_exports`, lib.rs:213-238. -/
def expsOf : TSNode → List ExportInfo
  | .mk k x r cs =>
    (if k == "export_statement" then parseExportStatement (.mk k x r cs) else []) ++
    expsOfF cs
def expsOfF : TSForest → List ExportInfo
  | .nil => []
  | .cons c cs => expsOf c ++ expsOfF cs
end

/-- `get_imports_exports`, lib.rs:183-211 (TypeScript only). -/
def getImportsExports (fs : String → Option TSNode) (file : String) :
    Option (List ImportInfo × List ExportInfo) :=
  if extTsx file then
    match fs file with
    | some t => some (impsOf t, expsOf t)
    | none => none
  else none

/-- `extract_symbol_name`, lib.rs:436-465: first `identifier`/`type_identifier`/
`property_identifier` child; for a `variable_declarator` child, its first
`identifier` — falling through to later children when the declarator has none. -/
def extractName : TSForest → Option String
  | .nil => none
  | .cons c cs =>
    if c.kindOf == "identifier" || c.kindOf == "type_identifier" ||
       c.kindOf == "property_identifier" then some c.textOf
    else if c.kindOf == "variable_declarator" then
      match firstIdentText c.childrenOf with
      | some t => some t
      | none => extractName cs
    else extractName cs

def extractSymbolName (n : TSNode) : Option String :=
  extractName n.childrenOf

structure SymbolInfo where
  name : String
  kind : String
  signature : String
  line : Nat
  file : String
deriving DecidableEq, Repr

mutual
/-- `find_symbol`, lib.rs:386-434: pre-order; return the first relevant declaration
whose extracted name equals the target, recursing into all children otherwise. -/
def findSymbol : TSNode → String → String → Option SymbolInfo
  | .mk k x r cs, target, file =>
    let rel := findKindRel k
    let own : Option SymbolInfo :=
      if rel.1 then
        match extractName cs with
        | some nm => if nm == target then some ⟨nm, rel.2, sigOf x, r + 1, file⟩ else none
        | none => none
      else none
    match own with
    | some i => some i
    | none => findSymbolF cs target file
def findSymbolF : TSForest → String → String → Option SymbolInfo
  | .nil, _, _ => none
  | .cons c cs, target, file =>
    match findSymbol c target file with
    | some i => some i
    | none => findSymbolF cs target file
end

mutual
/-- Pre-order list of all nodes of a tree (specification device for `find_symbol`). -/
def allNodes : TSNode → List TSNode
  | .mk k x r cs => TSNode.mk k x r cs :: allNodesF cs
def allNodesF : TSForest → List TSNode
  | .nil => []
  | .cons c cs => allNodes c ++ allNodesF cs
end

/-- `get_symbol_info`, lib.rs:151-181: read and parse the file (both folded into
`fs`), gate on the extension, then `find_symbol`. -/
def getSymbolInfo (fs : String → Option TSNode) (file symbol : String) : Option SymbolInfo :=
  if extSearch file then
    match fs file with
    | some t => findSymbol t symbol file
    | none => none
  else none

/-- Split a character list at its last occurrence of `sep`:
`some (before, after)` when `sep` occurs, `none` otherwise. -/
def splitLastChar (sep : Char) : List Char → Option (List Char × List Char)
  | [] => none
  | c :: rest =>
    match splitLastChar sep rest with
    | some (pre, post) => some (c :: pre, post)
    | none => if c == sep then some ([], rest) else none

/-- `Path::parent` on the path strings the engine builds (no trailing slashes):
`none` for `""` and `"/"`, the prefix before the last `/` otherwise (`"/"` when that
prefix is empty, `""` for a bare file name). -/
def rustParent (s : String) : Option String :=
  if s == "" || s == "/" then none
  else
    match splitLastChar '/' s.toList with
    | some (pre, _) => some (if pre == [] then "/" else String.mk pre)
    | none => some ""

/-- `Path::join`: an absolute right operand replaces the path; otherwise the name is
appended after a `/`. -/
def rustJoin (d p : String) : String :=
  if strStarts p "/" then p
  else if d == "" then p
  else if strEnds d "/" then d ++ p
  else d ++ "/" ++ p

/-- `Path::file_stem` on a file name: the part before the last `.`, except that a
lone leading `.` does not start an extension. -/
def rustStem : List Char → List Char
  | [] => []
  | c :: rest =>
    c :: (match splitLastChar '.' rest with
          | some (pre, _) => pre
          | none => rest)

/-- `Path::with_extension("ts")`, lib.rs:683: replaces the extension of the final
component (appends `.ts` when there is none). -/
def rustWithExtTs (s : String) : String :=
  match splitLastChar '/' s.toList with
  | some (pre, post) => String.mk pre ++ "/" ++ String.mk (rustStem post) ++ ".ts"
  | none => String.mk (rustStem s.toList) ++ ".ts"

/-- `resolve_import_path`, lib.rs:672-696.  `ex` is the `Path::exists` oracle. -/
def resolveImportPath (ex : String → Bool) (from_file import_source : String) : String :=
  let fromDir := (rustParent from_file).getD "."
  let resolved := rustJoin fromDir import_source
  if ex resolved then resolved
  else
    let withTs := rustWithExtTs resolved
    if ex withTs then withTs
    else
      let idx := rustJoin resolved "index.ts"
      if ex idx then idx else resolved

structure SymbolLocation where
  file : String
  line : Nat
  column : Nat
  kind : String
  external : Bool
  package : Option String
deriving DecidableEq, Repr

/-- The import-match test of the `resolve_symbol` loop, lib.rs:736. -/
def importMatches (i : ImportInfo) (symbol : String) : Bool :=
  i.symbols.contains symbol || (i.is_namespace && i.symbols.head? == some symbol)

/-- The external-specifier test, lib.rs:647-648 and lib.rs:737-738. -/
def isExternalSpec (s : String) : Bool :=
  !(strStarts s ".") && !(strStarts s "/")

/-- The import loop of `resolve_symbol`, lib.rs:735-782. -/
def resolveLoop (fs : String → Option TSNode) (ex : String → Bool) (symbol file : String) :
    List ImportInfo → Option SymbolLocation
  | [] => none
  | i :: rest =>
    if importMatches i symbol then
      if isExternalSpec i.source then
        some ⟨"", 0, 0, "import", true, some i.source⟩
      else
        let rp := resolveImportPath ex file i.source
        match (match fs rp with
               | some t2 => findSymbol t2 symbol rp
               | none => none) with
        | some info => some ⟨info.file, info.line, 0, info.kind, false, none⟩
        | none => some ⟨rp, 0, 0, "import", false, none⟩
    else resolveLoop fs ex symbol file rest

/-- `resolve_symbol`, lib.rs:698-785 (TypeScript only): local `find_symbol` first,
then the import loop. -/
def resolveSymbol (fs : String → Option TSNode) (ex : String → Bool)
    (symbol file : String) : Option SymbolLocation :=
  if extTsx file then
    match fs file with
    | some t =>
      match findSymbol t symbol file with
      | some info => some ⟨info.file, info.line, 0, info.kind, false, none⟩
      | none => resolveLoop fs ex symbol file (impsOf t)
    | none => none
  else none

structure DependencyNode where
  file : String
  exports : List String
deriving DecidableEq, Repr

structure DependencyEdge where
  from_ : String
  to_ : String
  symbols : List String
  external : Bool
deriving DecidableEq, Repr

structure DependencyGraph where
  nodes : List DependencyNode
  edges : List DependencyEdge

/-- The edges pushed for one file's imports, lib.rs:645-663. -/
def edgesForFile (ex : String → Bool) (p : String) (t : TSNode) : List DependencyEdge :=
  (impsOf t).map (fun i =>
    let isExt := isExternalSpec i.source
    ⟨p, if isExt then i.source else resolveImportPath ex p i.source, i.symbols, isExt⟩)

/-- The single pass of `build_dependency_graph` over the walked entries,
lib.rs:611-667: each successfully parsed TypeScript file contributes its node and
then its edges. -/
def buildGraphList (ex : String → Bool) : List WEntry → DependencyGraph
  | [] => ⟨[], []⟩
  | e :: rest =>
    if extTsx e.path then
      match e.parsed with
      | some t =>
        ⟨⟨e.path, (expsOf t).map (fun x => x.name)⟩ :: (buildGraphList ex rest).nodes,
         edgesForFile ex e.path t ++ (buildGraphList ex rest).edges⟩
      | none => buildGraphList ex rest
    else buildGraphList ex rest

/-- `build_dependency_graph`, lib.rs:596-670, for an existing root (the function
returns `None` only when the root path does not exist, lib.rs:601-604). -/
def buildDependencyGraph (ex : String → Bool) (root : FsTree) : DependencyGraph :=
  buildGraphList ex (walkFiles "" root)

/-- The collected module specifier of an import statement (the projection of
`parse_import_statement` that decides discarding), lib.rs:249-255 and lib.rs:304-306. -/
def specOf (n : TSNode) : String :=
  (lastSpec n.childrenOf).getD ""

/-- Whether an `import_statement` has an `import_clause` child (a side-effect import
has none). -/
def hasImportClause : TSForest → Bool
  | .nil => false
  | .cons c cs => (c.kindOf == "import_clause") || hasImportClause cs

/-- Grammar well-formedness of the namespace imports inside one `import_clause`:
every `namespace_import` child carries at least one `identifier` child (the
tree-sitter grammar produces exactly one, the binding `N` of `* as N`). -/
def nsOkClause : TSForest → Bool
  | .nil => true
  | .cons c cs =>
    (if c.kindOf == "namespace_import" then !(nsIdentTexts c.childrenOf).isEmpty else true) &&
    nsOkClause cs

/-- Grammar well-formedness of all namespace imports of an `import_statement`. -/
def nsOkImport : TSForest → Bool
  | .nil => true
  | .cons c cs =>
    (if c.kindOf == "import_clause" then nsOkClause c.childrenOf else true) && nsOkImport cs

/-- The test `find_symbol` applies at a node: relevant kind and extracted name equal
to the target, lib.rs:403-422. -/
def declInfoB (target : String) (n : TSNode) : Bool :=
  (findKindRel n.kindOf).1 && (extractSymbolName n == some target)

/-- The first candidate `dir/specifier` of the module resolver, lib.rs:675-679. -/
def candidatePath (from_file import_source : String) : String :=
  rustJoin ((rustParent from_file).getD ".") import_source

/-! ## Concrete fixtures

Hand-written tree-sitter parses used as witnesses and counterexamples.  Anonymous
punctuation children (braces, commas, quotes) are elided where shown: they carry
kinds that match none of the engine's kind tests, so eliding them changes no
modelled computation; texts of body nodes are abbreviated likewise. -/

def TSForest.ofList : List TSNode → TSForest
  | [] => .nil
  | c :: cs => .cons c (TSForest.ofList cs)

def tsn (k x : String) (r : Nat) (cs : List TSNode) : TSNode :=
  .mk k x r (TSForest.ofList cs)

/-- `Path::exists` oracle for an empty disk. -/
def exFalse : String → Bool := fun _ => false

/-- Parse of the one-line TypeScript file `const x = 1;`. -/
def tLex : TSNode :=
  tsn "program" "const x = 1;" 0
    [tsn "lexical_declaration" "const x = 1;" 0
      [tsn "const" "const" 0 [],
       tsn "variable_declarator" "x = 1" 0
         [tsn "identifier" "x" 0 [], tsn "=" "=" 0 [], tsn "number" "1" 0 []],
       tsn ";" ";" 0 []]]

/-- Parse of the TypeScript file `if (x) { function g() {} }` (body text of the
block abbreviated). -/
def tIf : TSNode :=
  tsn "program" "if (x) ..." 0
    [tsn "if_statement" "if (x) ..." 0
      [tsn "if" "if" 0 [],
       tsn "parenthesized_expression" "(x)" 0 [tsn "identifier" "x" 0 []],
       tsn "statement_block" "..." 0
         [tsn "function_declaration" "function g() {}" 0
           [tsn "function" "function" 0 [],
            tsn "identifier" "g" 0 [],
            tsn "formal_parameters" "()" 0 [],
            tsn "statement_block" "{}" 0 []]]]]

/-- Parse of the import statement `import Foo, * as N from "m";` — a legal ES
combination of a default import and a namespace import in one clause. -/
def tImp5 : TSNode :=
  tsn "import_statement" "import Foo, * as N from \"m\";" 0
    [tsn "import" "import" 0 [],
     tsn "import_clause" "Foo, * as N" 0
       [tsn "identifier" "Foo" 0 [],
        tsn "," "," 0 [],
        tsn "namespace_import" "* as N" 0
          [tsn "*" "*" 0 [], tsn "as" "as" 0 [], tsn "identifier" "N" 0 []]],
     tsn "from" "from" 0 [],
     tsn "string" "\"m\"" 0 [tsn "string_fragment" "m" 0 []],
     tsn ";" ";" 0 []]

/-- Parse of the side-effect import `import "./styles.css";` (no import clause). -/
def tImp9 : TSNode :=
  tsn "import_statement" "import \"./styles.css\";" 0
    [tsn "import" "import" 0 [],
     tsn "string" "\"./styles.css\"" 0 [tsn "string_fragment" "./styles.css" 0 []],
     tsn ";" ";" 0 []]

/-- The `function_declaration` node of `function f() {}`. -/
def tFnDecl : TSNode :=
  tsn "function_declaration" "function f() {}" 0
    [tsn "function" "function" 0 [],
     tsn "identifier" "f" 0 [],
     tsn "formal_parameters" "()" 0 [],
     tsn "statement_block" "{}" 0 []]

/-- Parse of the TypeScript file `function f() {}`. -/
def tFn : TSNode :=
  tsn "program" "function f() {}" 0 [tFnDecl]

/-- A workspace with the single file `a.ts` containing `function f() {}`. -/
def fsA : String → Option TSNode := fun p => if p == "a.ts" then some tFn else none

/-- Parse of the Rust file `fn f() {}`. -/
def tFnRs : TSNode :=
  tsn "source_file" "fn f() {}" 0
    [tsn "function_item" "fn f() {}" 0
      [tsn "fn" "fn" 0 [],
       tsn "identifier" "f" 0 [],
       tsn "parameters" "()" 0 [],
       tsn "block" "{}" 0 []]]

/-- A workspace with the single file `a.rs` containing `fn f() {}`. -/
def fsR : String → Option TSNode := fun p => if p == "a.rs" then some tFnRs else none

/-- Parse of `import { sym } from "src";` for the given specifier and symbol. -/
def impNamed (src sym : String) : TSNode :=
  tsn "import_statement" ("import ... from \"" ++ src ++ "\";") 0
    [tsn "import" "import" 0 [],
     tsn "import_clause" sym 0
       [tsn "named_imports" sym 0
         [tsn "import_specifier" sym 0 [tsn "identifier" sym 0 []]]],
     tsn "from" "from" 0 [],
     tsn "string" ("\"" ++ src ++ "\"") 0 [tsn "string_fragment" src 0 []],
     tsn ";" ";" 0 []]

/-- Parse of the file `import { x } from "./a"; import { x } from "fs";` — `x` is
bound by an earlier relative import and by a later external import. -/
def tM8 : TSNode :=
  tsn "program" "import ..." 0 [impNamed "./a" "x", impNamed "fs" "x"]

/-- A workspace with the single file `m.ts` holding `tM8`. -/
def fsM8 : String → Option TSNode := fun p => if p == "m.ts" then some tM8 else none

/-- Parse of the file `import { readFileSync } from "fs";`. -/
def tExt : TSNode :=
  tsn "program" "import ..." 0 [impNamed "fs" "readFileSync"]

/-- A workspace with the single file `a.ts` holding `tExt`. -/
def fsExt : String → Option TSNode := fun p => if p == "a.ts" then some tExt else none

/-- A workspace directory `r` containing the single regular file `.a.ts` (a hidden
basename with a TypeScript extension). -/
def fsT4 : FsTree :=
  .dir "r" (.cons (.file ".a.ts" (some tFn)) .nil)

/-- A concrete fuzzy scorer: scores the signature `fn f()` against query `f` at 100. -/
def m0 : String → String → Option Int := fun s q =>
  if s == "fn f()" && q == "f" then some 100 else none

/-- A workspace directory `r` containing the single file `a.rs`. -/
def fsT7 : FsTree := .dir "r" (.cons (.file "a.rs" (some tFnRs)) .nil)

/-- A workspace directory `r` containing the single file `m.ts` holding `tM8`. -/
def fsT10 : FsTree := .dir "r" (.cons (.file "m.ts" (some tM8)) .nil)

/-- Existence oracle of a disk holding `a` (a directory) and the files `a/x.ts` and
`a/b.css.ts` — consistently extended to the non-normalized strings the resolver
builds (`a/./b.css` does not exist, `a/./b.css.ts` does). -/
def ex3 : String → Bool := fun s =>
  s == "a" || s == "a/x.ts" || s == "a/b.css.ts" || s == "a/./b.css.ts"

/-- Existence oracle of a disk holding only `a/b.ts` (under the non-normalized
spelling `a/./b.ts` the resolver builds). -/
def exW : String → Bool := fun s => s == "a/./b.ts" || s == "a/b.ts"

/-! ## Theorems -/

/-- Combined induction principle for trees and forests. -/
theorem tsPairInd (P : TSNode → Prop) (Q : TSForest → Prop)
    (h1 : ∀ k x r cs, Q cs → P (.mk k x r cs))
    (h2 : Q .nil)
    (h3 : ∀ c cs, P c → Q cs → Q (.cons c cs)) :
    (∀ t, P t) ∧ (∀ f, Q f) :=
  ⟨fun t => TSNode.rec h1 h2 h3 t, fun f => TSForest.rec h1 h2 h3 f⟩

/-- Combined induction principle for workspace trees and lists. -/
theorem fsPairInd (P : FsTree → Prop) (Q : FsList → Prop)
    (h1 : ∀ n c, P (.file n c))
    (h2 : ∀ n cs, Q cs → P (.dir n cs))
    (h3 : Q .nil)
    (h4 : ∀ t ts, P t → Q ts → Q (.cons t ts)) :
    (∀ t, P t) ∧ (∀ l, Q l) :=
  ⟨fun t => FsTree.rec h1 h2 h3 h4 t, fun l => FsList.rec h1 h2 h3 h4 l⟩

/-- Every node in a skeleton declaration list satisfies the skeleton walker's
relevance test. -/
theorem skelDecls_relevant :
    (∀ t : TSNode, ∀ d, (skelDecls t d).all (fun nd => skelRelevantK nd.kindOf) = true) ∧
    (∀ f : TSForest, ∀ d, (skelDeclsF f d).all (fun nd => skelRelevantK nd.kindOf) = true) := by
  refine tsPairInd _ _ ?_ ?_ ?_
  · intro k x r cs ih d
    simp only [skelDecls, List.all_append, Bool.and_eq_true]
    constructor
    · cases hrel : skelRelevantK k <;> simp [TSNode.kindOf, hrel]
    · cases hc : (containerK k || d == 0) <;> simp [ih]
  · intro d
    simp [skelDeclsF]
  · intro c cs ihc ihf d
    simp only [skelDeclsF, List.all_append, Bool.and_eq_true]
    exact ⟨ihc d, ihf d⟩

/-- C1: the claim asserts that `lexical_declaration` / `variable_declaration` nodes
are declarations of interest for the skeleton traversal and that `walk_tree` emits an
indented signature line whenever it encounters a top-level variable declaration.
Counterexample: the file `const x = 1;` — its skeleton is empty, no line is emitted
for the `lexical_declaration` node, even though that kind is classified as a
`variable` declaration by `find_symbol`. -/
theorem C1_counterexample :
    TSNode.kindOf (tsn "lexical_declaration" "const x = 1;" 0 []) = "lexical_declaration" ∧
    findKindRel "lexical_declaration" = (true, "variable") ∧
    extractSkeleton tLex = "" ∧
    (skelDecls tLex 0).length = 0 := by
  exact ⟨rfl, rfl, rfl, rfl⟩

/-- C1 (amended): `lexical_declaration` / `variable_declaration` are declarations of
interest with exposed kind `variable` only for symbol lookup (`find_symbol`); the
skeleton walker `walk_tree` classifies neither as relevant, so no skeleton line is
ever emitted for a variable declaration — every emitted node has one of the nine
kinds of `walk_tree`'s own table. -/
theorem C1_skeleton_excludes_variable_declarations :
    findKindRel "lexical_declaration" = (true, "variable") ∧
    findKindRel "variable_declaration" = (true, "variable") ∧
    skelRelevantK "lexical_declaration" = false ∧
    skelRelevantK "variable_declaration" = false ∧
    (∀ t : TSNode, ∀ d,
      (skelDecls t d).all (fun nd => skelRelevantK nd.kindOf) = true) := by
  exact ⟨rfl, rfl, rfl, rfl, skelDecls_relevant.1⟩

/-- The recursion condition of `walk_and_match` coincides with the container test
(`program` and `source_file` are container kinds already). -/
theorem matchCond_eq (k : String) :
    (containerK k || k == "program" || k == "source_file") = containerK k := by
  simp only [containerK]
  cases h1 : (k == "program") <;> cases h2 : (k == "source_file") <;> simp [h1, h2]

/-- The declarations scored by `walk_and_match` form a sublist of the declarations
emitted by `walk_tree` at any depth. -/
theorem matchDecls_sublist :
    (∀ t : TSNode, ∀ d, (matchDecls t).Sublist (skelDecls t d)) ∧
    (∀ f : TSForest, ∀ d, (matchDeclsF f).Sublist (skelDeclsF f d)) := by
  refine tsPairInd _ _ ?_ ?_ ?_
  · intro k x r cs ih d
    simp only [matchDecls, skelDecls, matchCond_eq]
    cases hc : containerK k
    · simp only [Bool.false_or, Bool.false_eq_true, if_false, List.append_nil]
      exact List.sublist_append_left _ _
    · simp only [Bool.true_or, if_true]
      exact List.Sublist.append (List.Sublist.refl _) (ih _)
  · intro d
    simp [matchDeclsF, skelDeclsF]
  · intro c cs ihc ihf d
    simp only [matchDeclsF, skelDeclsF]
    exact List.Sublist.append (ihc d) (ihf d)

/-- C2: the claim asserts that search scores exactly the declaration set that the
skeleton emits.  Counterexample: in `if (x) { function g() {} }` the skeleton walker
reaches the function through the depth-0 rule (which descends through the
non-container `if_statement` and `statement_block`), while `walk_and_match` — which
has no depth rule and only descends through container kinds — never reaches it. -/
theorem C2_counterexample :
    (matchDecls tIf).length = 0 ∧ (skelDecls tIf 0).length = 1 ∧
    matchDecls tIf ≠ skelDecls tIf 0 := by
  exact ⟨rfl, rfl, by decide⟩

/-- C2 (amended): the two traversals are not the same — `walk_and_match` descends
only through container kinds, while `walk_tree` additionally descends through
arbitrary kinds while its depth counter is 0.  What holds is a refinement: the
declaration nodes scored by search form a sublist (same relative order, possibly
fewer) of the declaration nodes emitted into the skeleton. -/
theorem C2_search_decls_sublist_of_skeleton (t : TSNode) :
    (matchDecls t).Sublist (skelDecls t 0) :=
  matchDecls_sublist.1 t 0

/-- C3: the claim asserts the second candidate tried is the string `candidate + ".ts"`
(preserving an existing extension).  Counterexample: resolving `./b.css` from
`a/x.ts` on a disk where `a/./b.css.ts` exists: `candidate + ".ts"` exists, yet the
resolver returns the unresolved candidate — because the code's second try is
`with_extension("ts")`, which replaces `.css` and probes `a/./b.ts` instead. -/
theorem C3_counterexample :
    resolveImportPath ex3 "a/x.ts" "./b.css" = "a/./b.css" ∧
    ex3 ("a/./b.css" ++ ".ts") = true ∧
    ex3 "a/./b.css" = false ∧
    rustWithExtTs "a/./b.css" = "a/./b.ts" ∧
    ex3 "a/./b.ts" = false ∧
    "a/./b.css" ≠ "a/./b.css" ++ ".ts" := by
  refine ⟨by decide, by decide, by decide, by decide, by decide, by decide⟩

/-- Definitional restatement of the resolver's fallback chain in terms of the first
candidate. -/
theorem resolveImportPath_eq (ex : String → Bool) (f s : String) :
    resolveImportPath ex f s =
      (if ex (candidatePath f s) then candidatePath f s
       else if ex (rustWithExtTs (candidatePath f s)) then rustWithExtTs (candidatePath f s)
       else if ex (rustJoin (candidatePath f s) "index.ts") then
         rustJoin (candidatePath f s) "index.ts"
       else candidatePath f s) := rfl

/-- C3 (amended): when `dir/specifier` does not exist, the next path tried is
`candidate.with_extension("ts")` — which replaces an existing extension of the final
component (appending `.ts` only when there is none) — then `candidate/index.ts`, and
otherwise the unresolved candidate is returned as-is. -/
theorem C3_resolver_fallback_chain (ex : String → Bool) (f s : String) :
    (ex (candidatePath f s) = true →
      resolveImportPath ex f s = candidatePath f s) ∧
    (ex (candidatePath f s) = false →
      ex (rustWithExtTs (candidatePath f s)) = true →
      resolveImportPath ex f s = rustWithExtTs (candidatePath f s)) ∧
    (ex (candidatePath f s) = false →
      ex (rustWithExtTs (candidatePath f s)) = false →
      ex (rustJoin (candidatePath f s) "index.ts") = true →
      resolveImportPath ex f s = rustJoin (candidatePath f s) "index.ts") ∧
    (ex (candidatePath f s) = false →
      ex (rustWithExtTs (candidatePath f s)) = false →
      ex (rustJoin (candidatePath f s) "index.ts") = false →
      resolveImportPath ex f s = candidatePath f s) := by
  refine ⟨?_, ?_, ?_, ?_⟩
  · intro h1
    rw [resolveImportPath_eq]
    simp [h1]
  · intro h1 h2
    rw [resolveImportPath_eq]
    simp [h1, h2]
  · intro h1 h2 h3
    rw [resolveImportPath_eq]
    simp [h1, h2, h3]
  · intro h1 h2 h3
    rw [resolveImportPath_eq]
    simp [h1, h2, h3]

/-- Witness for the amended C3: resolving `./b` from `a/x.ts` on a disk holding
`a/b.ts` takes the extension fallback and yields `a/./b.ts`. -/
theorem C3_resolver_fallback_chain_witness :
    resolveImportPath exW "a/x.ts" "./b" = rustWithExtTs (candidatePath "a/x.ts" "./b") ∧
    rustWithExtTs (candidatePath "a/x.ts" "./b") = "a/./b.ts" ∧
    candidatePath "a/x.ts" "./b" = "a/./b" :=
  ⟨(C3_resolver_fallback_chain exW "a/x.ts" "./b").2.1 rfl rfl, rfl, rfl⟩

/-- The walker never yields an entry whose basename is hidden: `filter_entry`
applies `is_hidden` to file entries just as to directories. -/
theorem walkFiles_not_hidden :
    (∀ t : FsTree, ∀ pre, ∀ e ∈ walkFiles pre t, isHiddenName e.fname = false) ∧
    (∀ l : FsList, ∀ pre, ∀ e ∈ walkFilesL pre l, isHiddenName e.fname = false) := by
  refine fsPairInd _ _ ?_ ?_ ?_ ?_
  · intro n c pre e he
    cases hn : isHiddenName n <;> simp [walkFiles, hn] at he
    · subst he
      exact hn
  · intro n cs ih pre e he
    cases hn : isHiddenName n <;> simp [walkFiles, hn] at he
    · exact ih (pathJoin pre n) e he
  · intro pre e he
    simp [walkFilesL] at he
  · intro t ts iht ihts pre e he
    simp only [walkFilesL, List.mem_append] at he
    rcases he with h | h
    · exact iht pre e h
    · exact ihts pre e h

/-- C4: the claim asserts that only directory entries are pruned by basename and a
hidden-named regular file with a supported extension is still processed.
Counterexample: the workspace `r/.a.ts` — the file has extension `.ts` and a
basename starting with `.`, and the walker yields nothing at all. -/
theorem C4_counterexample :
    (allEntries "" fsT4).map (fun e => e.path) = ["r/.a.ts"] ∧
    extSearch "r/.a.ts" = true ∧
    isHiddenName ".a.ts" = true ∧
    walkFiles "" fsT4 = [] := by
  exact ⟨rfl, rfl, rfl, rfl⟩

/-- C4 (amended): the `walkdir` filter prunes *every* entry by basename — files as
well as directories — so a file whose basename starts with `.` or equals
`node_modules`, `target` or `dist` is never read or processed, whatever its
extension; every entry the walker yields has a non-hidden basename. -/
theorem C4_walker_prunes_files_too (root : FsTree) (pre : String) (e : WEntry) :
    e ∈ walkFiles pre root → isHiddenName e.fname = false :=
  fun he => walkFiles_not_hidden.1 root pre e he

/-- Witness for the amended C4: the single yielded entry of the workspace `r/a.rs`
has a non-hidden basename. -/
theorem C4_walker_prunes_files_too_witness :
    (⟨"r/a.rs", "a.rs", some tFnRs⟩ : WEntry) ∈ walkFiles "" fsT7 ∧
    isHiddenName "a.rs" = false :=
  ⟨by decide, C4_walker_prunes_files_too fsT7 "" ⟨"r/a.rs", "a.rs", some tFnRs⟩ (by decide)⟩

/-- A clause whose scan sets `is_namespace` pushes at least one symbol, provided its
namespace imports are grammatically well-formed. -/
theorem clauseNs_syms :
    ∀ g : TSForest, clauseNs g = true → nsOkClause g = true → 1 ≤ (clauseSyms g).length := by
  refine (tsPairInd (fun _ => True) _ (fun _ _ _ _ _ => trivial) ?_ ?_).2
  · intro h
    simp [clauseNs] at h
  · intro c cs _ ih hns hok
    simp only [clauseNs, Bool.or_eq_true] at hns
    simp only [nsOkClause, Bool.and_eq_true] at hok
    simp only [clauseSyms, List.length_append]
    rcases hns with h | h
    · have hk : c.kindOf = "namespace_import" := by simpa using h
      have hne : (nsIdentTexts c.childrenOf).isEmpty = false := by
        have h1 := hok.1
        rw [hk] at h1
        simpa using h1
      have h1 : 1 ≤ (nsIdentTexts c.childrenOf).length := by
        cases hh : nsIdentTexts c.childrenOf with
        | nil => rw [hh] at hne; simp at hne
        | cons a as => simp
      rw [hk]
      simp only [show (("namespace_import" : String) == "identifier") = false from rfl,
        Bool.false_eq_true, if_false, if_true,
        show (("namespace_import" : String) == "namespace_import") = true from rfl]
      omega
    · have h2 := ih h hok.2
      omega

/-- An import whose scan sets `is_namespace` collects at least one symbol, provided
its namespace imports are grammatically well-formed. -/
theorem impNs_syms :
    ∀ f : TSForest, impNs f = true → nsOkImport f = true → 1 ≤ (impSyms f).length := by
  refine (tsPairInd (fun _ => True) _ (fun _ _ _ _ _ => trivial) ?_ ?_).2
  · intro h
    simp [impNs] at h
  · intro c cs _ ih hns hok
    simp only [impNs, Bool.or_eq_true] at hns
    simp only [nsOkImport, Bool.and_eq_true] at hok
    simp only [impSyms, List.length_append]
    rcases hns with h | h
    · by_cases hk : (c.kindOf == "import_clause") = true
      · have hkk : c.kindOf = "import_clause" := by simpa using hk
        rw [if_pos hk] at h
        have hokc : nsOkClause c.childrenOf = true := by
          have h1 := hok.1
          rw [hkk] at h1
          simpa using h1
        have h1 := clauseNs_syms c.childrenOf h hokc
        rw [hkk]
        simp only [show (("import_clause" : String) == "import_clause") = true from rfl,
          if_true]
        omega
      · rw [if_neg hk] at h
        exact absurd h (by simp)
    · have h2 := ih h hok.2
      omega

/-- C5: the claim asserts that a namespace import always carries exactly one symbol.
Counterexample: `import Foo, * as N from "m";` — a legal combination of a default
and a namespace import — yields `is_namespace = true` with *two* symbols. -/
theorem C5_counterexample :
    parseImportStatement tImp5 = some ⟨"m", ["Foo", "N"], true, true⟩ ∧
    nsOkImport (TSNode.childrenOf tImp5) = true ∧
    (["Foo", "N"] : List String).length ≠ 1 := by
  exact ⟨by decide, by decide, by decide⟩

/-- C5 (amended): every import returned by `parse_import_statement` has a non-empty
source; and when `is_namespace` is set, `symbols` contains *at least* one element
(the namespace binding) — exactly one only when the namespace import is the sole
binding of the clause, since a combined default identifier or named-import list
pushes additional symbols.  (The well-formedness hypothesis `nsOkImport` records the
tree-sitter grammar shape: each `namespace_import` carries its binding identifier.) -/
theorem C5_import_source_nonempty_ns_symbols (n : TSNode) (i : ImportInfo) :
    parseImportStatement n = some i →
    i.source ≠ "" ∧
    (nsOkImport (TSNode.childrenOf n) = true → i.is_namespace = true →
      1 ≤ i.symbols.length) := by
  intro h
  simp only [parseImportStatement] at h
  split at h
  · exact absurd h (by simp)
  · rename_i hs
    cases h
    constructor
    · intro hempty
      exact hs (by simpa using hempty)
    · intro hok hns
      exact impNs_syms (TSNode.childrenOf n) hns hok

/-- Witness for the amended C5: the combined import `import Foo, * as N from "m";`
has a non-empty source and at least one symbol. -/
theorem C5_import_source_nonempty_ns_symbols_witness :
    ("m" : String) ≠ "" ∧ 1 ≤ (["Foo", "N"] : List String).length := by
  have h := C5_import_source_nonempty_ns_symbols tImp5 ⟨"m", ["Foo", "N"], true, true⟩
    (by decide)
  exact ⟨h.1, h.2 (by decide) rfl⟩

/-- A predicate whose filter is a singleton is first found at that element. -/
theorem find?_of_filter_eq_singleton {α : Type} (p : α → Bool) (l : List α) (m : α) :
    l.filter p = [m] → l.find? p = some m := by
  induction l with
  | nil => intro h; simp at h
  | cons a as ih =>
    intro h
    by_cases hp : p a = true
    · rw [List.filter_cons_of_pos hp] at h
      rw [List.find?_cons_of_pos _ hp]
      simp only [List.cons.injEq] at h
      exact congrArg some h.1
    · rw [List.filter_cons_of_neg hp] at h
      rw [List.find?_cons_of_neg _ hp]
      exact ih h

/-- `find_symbol` returns the pre-order-first node passing its declaration test,
packaged as a `SymbolInfo`. -/
theorem findSymbol_eq_find :
    (∀ t : TSNode, ∀ target file,
      findSymbol t target file =
        ((allNodes t).find? (declInfoB target)).map
          (fun n => ⟨target, (findKindRel n.kindOf).2, sigOf n.textOf, n.rowOf + 1, file⟩)) ∧
    (∀ f : TSForest, ∀ target file,
      findSymbolF f target file =
        ((allNodesF f).find? (declInfoB target)).map
          (fun n => ⟨target, (findKindRel n.kindOf).2, sigOf n.textOf, n.rowOf + 1, file⟩)) := by
  refine tsPairInd _ _ ?_ ?_ ?_
  · intro k x r cs ih target file
    simp only [findSymbol, allNodes]
    by_cases hrel : (findKindRel k).1 = true
    · cases hname : extractName cs with
      | none =>
        have hd : declInfoB target (TSNode.mk k x r cs) = false := by
          simp [declInfoB, extractSymbolName, TSNode.childrenOf, hname]
        rw [List.find?_cons_of_neg _ (by simp [hd])]
        simp only [hrel, if_true, hname]
        exact ih target file
      | some nm =>
        by_cases heq : (nm == target) = true
        · have hnm : nm = target := by simpa using heq
          have hd : declInfoB target (TSNode.mk k x r cs) = true := by
            simp [declInfoB, extractSymbolName, TSNode.childrenOf, TSNode.kindOf,
              hname, hrel, hnm]
          rw [List.find?_cons_of_pos _ hd]
          simp only [hrel, if_true, hname, heq, Option.map_some]
          subst hnm
          rfl
        · have hd : declInfoB target (TSNode.mk k x r cs) = false := by
            simp only [declInfoB, extractSymbolName, TSNode.childrenOf, hname]
            simp [heq]
          rw [List.find?_cons_of_neg _ (by simp [hd])]
          simp only [hrel, if_true, hname, heq, Bool.false_eq_true, if_false]
          exact ih target file
    · have hrelf : (findKindRel k).1 = false := by
        cases hb : (findKindRel k).1
        · rfl
        · exact absurd hb hrel
      have hd : declInfoB target (TSNode.mk k x r cs) = false := by
        simp [declInfoB, TSNode.kindOf, hrelf]
      rw [List.find?_cons_of_neg _ (by simp [hd])]
      simp only [hrelf, Bool.false_eq_true, if_false]
      exact ih target file
  · intro target file
    simp [findSymbolF, allNodesF]
  · intro c cs ihc ihf target file
    simp only [findSymbolF, allNodesF]
    rw [List.find?_append]
    cases hfc : (allNodes c).find? (declInfoB target) with
    | some n =>
      rw [ihc target file, hfc]
      rfl
    | none =>
      rw [ihc target file, hfc]
      exact ihf target file

/-- C6: the claim asserts the round-trip for locally declared functions of *either*
supported language.  Counterexample: the Rust file `a.rs` containing `fn f() {}` —
`get_symbol_info` locates `f` at line 1, but `resolve_symbol` rejects every
non-TypeScript file outright and returns nothing. -/
theorem C6_counterexample :
    getSymbolInfo fsR "a.rs" "f" = some ⟨"f", "function", "fn f()", 1, "a.rs"⟩ ∧
    resolveSymbol fsR exFalse "f" "a.rs" = none := by
  exact ⟨by decide, by decide⟩

/-- C6 (amended): the round-trip holds for TypeScript files only (for a `.rs` file
`resolve_symbol` returns `None`).  For a TypeScript file whose unique declaration
of `F` is a `function_declaration` node `m`, `get_symbol_info` reports the 1-based
line of `m` and `resolve_symbol` returns the same file and line with
`external = false`. -/
theorem C6_roundtrip_typescript (fs : String → Option TSNode) (ex : String → Bool)
    (file F : String) (t m : TSNode)
    (hext : extTsx file = true)
    (hfs : fs file = some t)
    (huniq : (allNodes t).filter (declInfoB F) = [m])
    (hkind : TSNode.kindOf m = "function_declaration") :
    getSymbolInfo fs file F =
      some ⟨F, "function", sigOf (TSNode.textOf m), TSNode.rowOf m + 1, file⟩ ∧
    resolveSymbol fs ex F file =
      some ⟨file, TSNode.rowOf m + 1, 0, "function", false, none⟩ := by
  have hfind : (allNodes t).find? (declInfoB F) = some m :=
    find?_of_filter_eq_singleton _ _ _ huniq
  have hsym : findSymbol t F file =
      some ⟨F, "function", sigOf (TSNode.textOf m), TSNode.rowOf m + 1, file⟩ := by
    rw [findSymbol_eq_find.1, hfind]
    simp [hkind, findKindRel]
  have hext2 : extSearch file = true := by
    simp only [extTsx, Bool.or_eq_true] at hext
    rcases hext with h | h <;> simp [extSearch, h]
  constructor
  · simp [getSymbolInfo, hext2, hfs, hsym]
  · simp [resolveSymbol, hext, hfs, hsym]

/-- Witness for the amended C6: the file `a.ts` declaring `function f() {}`. -/
theorem C6_roundtrip_typescript_witness :
    getSymbolInfo fsA "a.ts" "f" =
      some ⟨"f", "function", sigOf (TSNode.textOf tFnDecl), TSNode.rowOf tFnDecl + 1, "a.ts"⟩ ∧
    resolveSymbol fsA exFalse "f" "a.ts" =
      some ⟨"a.ts", TSNode.rowOf tFnDecl + 1, 0, "function", false, none⟩ :=
  C6_roundtrip_typescript fsA exFalse "a.ts" "f" tFn tFnDecl (by decide) (by decide)
    (by decide) (by decide)

/-- Every result pushed by `walk_and_match` passed the score threshold. -/
theorem walkMatch_score (m : String → String → Option Int) (q p : String) :
    (∀ t : TSNode, ∀ res ∈ walkMatch m q p t, 60 < res.score) ∧
    (∀ f : TSForest, ∀ res ∈ walkMatchF m q p f, 60 < res.score) := by
  refine tsPairInd _ _ ?_ ?_ ?_
  · intro k x r cs ih res hres
    simp only [walkMatch, List.mem_append] at hres
    rcases hres with h | h
    · by_cases hrel : skelRelevantK k = true
      · rw [if_pos hrel] at h
        split at h
        · split at h
          · rename_i hsc
            simp only [List.mem_singleton] at h
            subst h
            exact hsc
          · simp at h
        · simp at h
      · rw [if_neg hrel] at h; simp at h
    · by_cases hc : (containerK k || k == "program" || k == "source_file") = true
      · rw [if_pos hc] at h
        exact ih res h
      · rw [if_neg hc] at h; simp at h
  · intro res h
    simp [walkMatchF] at h
  · intro c cs ihc ihf res h
    simp only [walkMatchF, List.mem_append] at h
    rcases h with h | h
    · exact ihc res h
    · exact ihf res h

/-- Every search candidate passed the score threshold. -/
theorem searchCandidates_score (m : String → String → Option Int) (root : FsTree)
    (q : String) : ∀ res ∈ searchCandidates m root q, 60 < res.score := by
  intro res h
  simp only [searchCandidates, List.mem_flatten, List.mem_map] at h
  obtain ⟨l, ⟨e, he, rfl⟩, hres⟩ := h
  by_cases hx : extSearch e.path = true
  · rw [if_pos hx] at hres
    cases hp : e.parsed with
    | none => rw [hp] at hres; simp at hres
    | some t =>
      rw [hp] at hres
      exact (walkMatch_score m q e.path).1 t res hres
  · rw [if_neg hx] at hres; simp at hres

/-- Membership in a stable descending insertion. -/
theorem mem_insertDesc {res r : SearchResult} {l : List SearchResult} :
    res ∈ insertDesc r l ↔ res = r ∨ res ∈ l := by
  induction l with
  | nil => simp [insertDesc]
  | cons x xs ih =>
    simp only [insertDesc]
    by_cases h : r.score < x.score
    · rw [if_pos h]
      simp only [List.mem_cons, ih]
      try tauto
    · rw [if_neg h]
      simp only [List.mem_cons]
      try tauto

/-- The stable sort permutes nothing in or out. -/
theorem mem_sortDesc {res : SearchResult} {l : List SearchResult} :
    res ∈ sortDesc l ↔ res ∈ l := by
  induction l with
  | nil => simp [sortDesc]
  | cons x xs ih => simp [sortDesc, mem_insertDesc, ih]

/-- Inserting preserves the non-increasing-score order. -/
theorem sorted_insertDesc {r : SearchResult} {l : List SearchResult}
    (h : List.Pairwise (fun a b => b.score ≤ a.score) l) :
    List.Pairwise (fun a b => b.score ≤ a.score) (insertDesc r l) := by
  induction l with
  | nil => simp [insertDesc]
  | cons x xs ih =>
    rcases List.pairwise_cons.mp h with ⟨hx, hxs⟩
    simp only [insertDesc]
    by_cases hlt : r.score < x.score
    · rw [if_pos hlt]
      refine List.pairwise_cons.mpr ⟨?_, ih hxs⟩
      intro b hb
      rcases mem_insertDesc.mp hb with rfl | hb2
      · exact le_of_lt hlt
      · exact hx b hb2
    · rw [if_neg hlt]
      push_neg at hlt
      refine List.pairwise_cons.mpr ⟨?_, h⟩
      intro b hb
      rcases List.mem_cons.mp hb with rfl | hb2
      · exact hlt
      · exact le_trans (hx b hb2) hlt

/-- The stable sort is sorted by score, non-increasing. -/
theorem sorted_sortDesc (l : List SearchResult) :
    List.Pairwise (fun a b => b.score ≤ a.score) (sortDesc l) := by
  induction l with
  | nil => simp [sortDesc]
  | cons x xs ih => exact sorted_insertDesc ih

/-- Insertion never reorders the elements of any one score class: elements skipped
before the insertion point have strictly greater score. -/
theorem filter_insertDesc (r : SearchResult) (l : List SearchResult) (s : Int) :
    (insertDesc r l).filter (fun a => a.score == s) =
      (if r.score == s then [r] else []) ++ l.filter (fun a => a.score == s) := by
  induction l with
  | nil =>
    simp only [insertDesc, List.filter, List.append_nil]
    by_cases h : (r.score == s) = true <;> simp [h]
  | cons x xs ih =>
    simp only [insertDesc]
    by_cases hlt : r.score < x.score
    · rw [if_pos hlt]
      by_cases hrs : (r.score == s) = true
      · have hr : r.score = s := by simpa using hrs
        have hxne : x.score ≠ s := by
          rw [← hr]
          exact Ne.symm (ne_of_lt hlt)
        have hx : (x.score == s) = false := by simp [hxne]
        rw [List.filter_cons_of_neg (by simp [hx]), ih,
          List.filter_cons_of_neg (by simp [hx])]
      · rw [List.filter_cons, ih, List.filter_cons]
        by_cases hx : (x.score == s) = true <;> simp [hx, hrs]
    · rw [if_neg hlt]
      rw [List.filter_cons]
      by_cases hrs : (r.score == s) = true <;> simp [hrs]

/-- The stable sort keeps every score class in discovery order. -/
theorem filter_sortDesc (l : List SearchResult) (s : Int) :
    (sortDesc l).filter (fun a => a.score == s) = l.filter (fun a => a.score == s) := by
  induction l with
  | nil => rfl
  | cons x xs ih =>
    simp only [sortDesc]
    rw [filter_insertDesc, ih, List.filter_cons]
    by_cases h : (x.score == s) = true <;> simp [h]

/-- C7 (confirmed): every result of `search` has score strictly above 60; the
returned list is non-increasing in score; it has at most 10 elements; and the sort
is stable — each score class appears in discovery (walker) order, matching Rust's
stable `sort_by`. -/
theorem C7_search_top10_sorted_stable (m : String → String → Option Int)
    (root : FsTree) (q : String) :
    (∀ res ∈ searchModel m root q, 60 < res.score) ∧
    List.Pairwise (fun a b => b.score ≤ a.score) (searchModel m root q) ∧
    (searchModel m root q).length ≤ 10 ∧
    (∀ s : Int,
      (sortDesc (searchCandidates m root q)).filter (fun a => a.score == s) =
        (searchCandidates m root q).filter (fun a => a.score == s)) := by
  refine ⟨?_, ?_, ?_, ?_⟩
  · intro res h
    have h2 : res ∈ sortDesc (searchCandidates m root q) := List.mem_of_mem_take h
    exact searchCandidates_score m root q res (mem_sortDesc.mp h2)
  · exact List.Pairwise.sublist (List.take_sublist _ _) (sorted_sortDesc _)
  · simp only [searchModel, List.length_take]
    exact min_le_left _ _
  · intro s
    exact filter_sortDesc _ s

/-- Witness for C7: searching the workspace `r/a.rs` with a scorer that rates
`fn f()` at 100 returns that single result, with score above 60 and list length
within bound. -/
theorem C7_search_top10_sorted_stable_witness :
    (⟨"r/a.rs", 1, "fn f()", (100 : Int)⟩ : SearchResult) ∈ searchModel m0 fsT7 "f" ∧
    60 < (100 : Int) ∧ (searchModel m0 fsT7 "f").length ≤ 10 := by
  refine ⟨by decide, ?_, (C7_search_top10_sorted_stable m0 fsT7 "f").2.2.1⟩
  exact (C7_search_top10_sorted_stable m0 fsT7 "f").1 ⟨"r/a.rs", 1, "fn f()", 100⟩ (by decide)

/-- `Vec::contains` agrees with list membership. -/
theorem contains_iff_mem {a : String} {l : List String} : l.contains a = true ↔ a ∈ l :=
  List.elem_iff

/-- An import whose symbols do not include `n` fails the loop's match test. -/
theorem importMatches_eq_false {i : ImportInfo} {n : String} (h : n ∉ i.symbols) :
    importMatches i n = false := by
  have hc : i.symbols.contains n = false := by
    cases hb : i.symbols.contains n
    · rfl
    · exact absurd (contains_iff_mem.mp hb) h
  have hh : (i.symbols.head? == some n) = false := by
    cases hs : i.symbols with
    | nil => rfl
    | cons b bs =>
      simp only [List.head?_cons]
      by_cases hb : b = n
      · subst hb
        rw [hs] at h
        exact absurd (List.mem_cons_self b bs) h
      · simp [hb]
  simp only [importMatches]
  rw [hc, hh]
  simp

/-- An import whose symbols include `n` passes the loop's match test. -/
theorem importMatches_eq_true {i : ImportInfo} {n : String} (h : n ∈ i.symbols) :
    importMatches i n = true := by
  simp only [importMatches]
  rw [contains_iff_mem.mpr h]
  simp

/-- The `resolve_symbol` loop skips a block of non-matching imports. -/
theorem resolveLoop_append_skip (fs : String → Option TSNode) (ex : String → Bool)
    (n file : String) (pre rest : List ImportInfo)
    (h : ∀ j ∈ pre, importMatches j n = false) :
    resolveLoop fs ex n file (pre ++ rest) = resolveLoop fs ex n file rest := by
  induction pre with
  | nil => rfl
  | cons j js ih =>
    have hj := h j (List.mem_cons_self j js)
    simp only [List.cons_append, resolveLoop, hj, Bool.false_eq_true, if_false]
    exact ih (fun a ha => h a (List.mem_cons_of_mem j ha))

/-- C8: the claim asserts that whenever an undeclared symbol appears in the symbols
of *an* external import, the external location is returned.  Counterexample: in
`import { x } from "./a"; import { x } from "fs";` the symbol `x` appears in the
external `"fs"` import, but the loop stops at the earlier relative import and
returns a local `"./a"` record instead of the external location. -/
theorem C8_counterexample :
    findSymbol tM8 "x" "m.ts" = none ∧
    impsOf tM8 = [⟨"./a", ["x"], false, false⟩, ⟨"fs", ["x"], false, false⟩] ∧
    isExternalSpec "fs" = true ∧
    resolveSymbol fsM8 exFalse "x" "m.ts" = some ⟨"./a", 0, 0, "import", false, none⟩ ∧
    some ⟨"./a", 0, 0, "import", false, none⟩ ≠
      some (⟨"", 0, 0, "import", true, some "fs"⟩ : SymbolLocation) := by
  exact ⟨by decide, by decide, by decide, by decide, by decide⟩

/-- C8 (amended): the external location `{file="", line=0, column=0, kind="import",
external=true, package=specifier}` is returned exactly when the *first* import whose
symbols contain the undeclared symbol is the external one — no earlier import of the
file may also bind that name. -/
theorem C8_external_import_resolution (fs : String → Option TSNode) (ex : String → Bool)
    (file n : String) (t : TSNode) (pre post : List ImportInfo) (i : ImportInfo)
    (hext : extTsx file = true)
    (hfs : fs file = some t)
    (hlocal : findSymbol t n file = none)
    (himps : impsOf t = pre ++ i :: post)
    (hpre : ∀ j ∈ pre, n ∉ j.symbols)
    (hmem : n ∈ i.symbols)
    (hx : isExternalSpec i.source = true) :
    resolveSymbol fs ex n file = some ⟨"", 0, 0, "import", true, some i.source⟩ := by
  simp only [resolveSymbol, hext, if_true, hfs, hlocal]
  rw [himps,
    resolveLoop_append_skip _ _ _ _ _ _ (fun j hj => importMatches_eq_false (hpre j hj))]
  simp only [resolveLoop, importMatches_eq_true hmem, if_true, hx]

/-- Witness for the amended C8: spec scenario S5, `import { readFileSync } from
"fs";` resolves to the external package `fs`. -/
theorem C8_external_import_resolution_witness :
    resolveSymbol fsExt exFalse "readFileSync" "a.ts" =
      some ⟨"", 0, 0, "import", true, some "fs"⟩ :=
  C8_external_import_resolution fsExt exFalse "a.ts" "readFileSync" tExt []
    [] ⟨"fs", ["readFileSync"], false, false⟩ (by decide) (by decide) (by decide)
    (by decide) (by simp) (by decide) (by decide)

/-- An import statement without an `import_clause` child collects no symbols and
sets no flags. -/
theorem hasImportClause_false_syms :
    ∀ f : TSForest, hasImportClause f = false →
      impSyms f = [] ∧ impDefault f = false ∧ impNs f = false := by
  refine (tsPairInd (fun _ => True) _ (fun _ _ _ _ _ => trivial) ?_ ?_).2
  · intro _
    exact ⟨rfl, rfl, rfl⟩
  · intro c cs _ ih h
    by_cases hk : (c.kindOf == "import_clause") = true
    · simp [hasImportClause, hk] at h
    · have hkf : (c.kindOf == "import_clause") = false := by
        cases hb : (c.kindOf == "import_clause")
        · rfl
        · exact absurd hb hk
      have h2 : hasImportClause cs = false := by
        simp only [hasImportClause, hkf, Bool.false_or] at h
        exact h
      obtain ⟨h3, h4, h5⟩ := ih h2
      refine ⟨?_, ?_, ?_⟩ <;>
        simp [impSyms, impDefault, impNs, hkf, h3, h4, h5]

/-- C9 (confirmed): `parse_import_statement` discards an import exactly when its
collected specifier is empty or absent; a side-effect import (no import clause)
with a non-empty specifier is returned with the unquoted specifier, empty symbol
list and both flags false. -/
theorem C9_side_effect_imports (n : TSNode) :
    (parseImportStatement n = none ↔ specOf n = "") ∧
    (hasImportClause (TSNode.childrenOf n) = false → specOf n ≠ "" →
      parseImportStatement n = some ⟨specOf n, [], false, false⟩) := by
  constructor
  · simp only [parseImportStatement, specOf]
    split
    · rename_i h
      exact ⟨fun _ => by simpa using h, fun _ => rfl⟩
    · rename_i h
      constructor
      · intro hh
        exact absurd hh (by simp)
      · intro hh
        exact absurd (by simpa using hh) h
  · intro hcl hne
    obtain ⟨h3, h4, h5⟩ := hasImportClause_false_syms _ hcl
    simp only [parseImportStatement, specOf] at hne ⊢
    rw [if_neg (fun hb => hne (by simpa using hb)), h3, h4, h5]

/-- Witness for C9: `import "./styles.css";` is returned with source
`./styles.css`, no symbols and both flags false. -/
theorem C9_side_effect_imports_witness :
    parseImportStatement tImp9 = some ⟨specOf tImp9, [], false, false⟩ ∧
    specOf tImp9 = "./styles.css" :=
  ⟨(C9_side_effect_imports tImp9).2 (by decide) (by decide), by decide⟩

/-- In every graph built over a walked entry list, each edge's `from` is the file of
a node of the same graph. -/
theorem buildGraphList_edge_from (ex : String → Bool) :
    ∀ (l : List WEntry) (e : DependencyEdge), e ∈ (buildGraphList ex l).edges →
      ∃ nd ∈ (buildGraphList ex l).nodes, nd.file = e.from_ := by
  intro l
  induction l with
  | nil =>
    intro e he
    simp [buildGraphList] at he
  | cons a rest ih =>
    intro e he
    simp only [buildGraphList] at he ⊢
    by_cases hx : extTsx a.path = true
    · rw [if_pos hx] at he ⊢
      cases hp : a.parsed with
      | none =>
        rw [hp] at he
        exact ih e he
      | some t =>
        rw [hp] at he
        have he2 : e ∈ edgesForFile ex a.path t ++ (buildGraphList ex rest).edges := he
        rcases List.mem_append.mp he2 with h | h
        · refine ⟨⟨a.path, (expsOf t).map (fun x => x.name)⟩, List.mem_cons_self _ _, ?_⟩
          simp only [edgesForFile, List.mem_map] at h
          obtain ⟨i, _, rfl⟩ := h
          rfl
        · obtain ⟨nd, hnd, hfile⟩ := ih e h
          exact ⟨nd, List.mem_cons_of_mem _ hnd, hfile⟩
    · rw [if_neg hx] at he ⊢
      exact ih e he

/-- C10 (confirmed): in every dependency graph, the `from` of every edge is the
`file` of some node — an edge is only pushed in the iteration that already pushed
its file's node. -/
theorem C10_edge_from_has_node (ex : String → Bool) (root : FsTree) (e : DependencyEdge) :
    e ∈ (buildDependencyGraph ex root).edges →
    ∃ nd ∈ (buildDependencyGraph ex root).nodes, nd.file = e.from_ :=
  buildGraphList_edge_from ex (walkFiles "" root) e

/-- Witness for C10: the workspace `r/m.ts` (two imports) has its edges covered by
the node `r/m.ts`. -/
theorem C10_edge_from_has_node_witness :
    (⟨"r/m.ts", "r/./a", ["x"], false⟩ : DependencyEdge) ∈
      (buildDependencyGraph exFalse fsT10).edges ∧
    ∃ nd ∈ (buildDependencyGraph exFalse fsT10).nodes, nd.file = "r/m.ts" := by
  refine ⟨by decide, ?_⟩
  exact C10_edge_from_has_node exFalse fsT10 ⟨"r/m.ts", "r/./a", ["x"], false⟩ (by decide)
